import Mathlib

/-!
Verification of the battery-pack design calculator (`src/app.py`).

The script loads a table of candidate cells, filters them by an optional
case-insensitive name substring and an optional chemistry, sorts the
survivors by descending cycle life, and scans them once: for each cell it
derives series/parallel counts from the target voltage and required energy,
builds the bounding box of the cell array, tests the six axis permutations
against the usable envelope, and accepts the first cell for which a
permutation fits.

Numbers are modelled as exact rationals (`ℚ`); a table value that
`pd.to_numeric(·, errors=coerce)` would turn into `NaN` is modelled as
`none` and the subsequent 0-fill as `Option.getD 0`.
-/

namespace BatteryPack

/-- One row of the reference table, with the columns the script reads.
A numeric column holds `none` where the CSV value is missing or
non-numeric (pandas coerces it to `NaN`). -/
structure CellRecord where
  cellName : String
  chemistry : String
  shape : String
  nominalVoltage : Option ℚ
  cellCapacity : Option ℚ
  cellDiameterLength : Option ℚ
  cellHeight : Option ℚ
  thirdDimension : Option ℚ
  cycleLife : Option ℚ
  deriving DecidableEq, Repr

/-- `pd.to_numeric(x, errors=coerce)` followed by replacing `NaN` with 0,
as done by `0 if pd.isna(v) else v` (and by `.fillna(0)`). -/
def coerceNum (x : Option ℚ) : ℚ := x.getD 0

/-! ## Packing function (`can_fit`, app.py lines 133-176) -/

/-- The list `volume_configurations` built inside `can_fit`: six axis
permutations of the cell-array bounding box, in the source's order.
Cylindrical cells use `(d*series, d*parallel, h)`; any other shape takes
the prismatic branch and uses `(l*series, b*parallel, h)` with
`l = cell_diameter_length` and `b = third_dimension`. -/
def volume_configurations (cell : CellRecord) (series parallel : ℤ) :
    List (ℚ × ℚ × ℚ) :=
  let cdl := coerceNum cell.cellDiameterLength
  let ch := coerceNum cell.cellHeight
  let td := coerceNum cell.thirdDimension
  if cell.shape = "Cylindrical" then
    let d := cdl
    let h := ch
    [(d * series, d * parallel, h),
     (d * parallel, d * series, h),
     (h, d * series, d * parallel),
     (d * series, h, d * parallel),
     (d * parallel, h, d * series),
     (h, d * parallel, d * series)]
  else
    let l := cdl
    let b := td
    let h := ch
    [(l * series, b * parallel, h),
     (l * series, h, b * parallel),
     (b * parallel, l * series, h),
     (b * parallel, h, l * series),
     (h, l * series, b * parallel),
     (h, b * parallel, l * series)]

/-- The `for config in volume_configurations` loop: return the first
triple whose components are within the envelope, else `None`. -/
def firstFit (usable_l usable_b usable_h : ℚ) :
    List (ℚ × ℚ × ℚ) → Option (ℚ × ℚ × ℚ)
  | [] => none
  | c :: rest =>
      if c.1 ≤ usable_l ∧ c.2.1 ≤ usable_b ∧ c.2.2 ≤ usable_h then some c
      else firstFit usable_l usable_b usable_h rest

/-- `can_fit(cell, series, parallel, usable_l, usable_b, usable_h)`. -/
def can_fit (cell : CellRecord) (series parallel : ℤ)
    (usable_l usable_b usable_h : ℚ) : Option (ℚ × ℚ × ℚ) :=
  firstFit usable_l usable_b usable_h (volume_configurations cell series parallel)

/-- The cell-array bounding-box triple underlying the six permutations:
`(d*series, d*parallel, h)` for cylindrical cells, `(l*series, b*parallel, h)`
for prismatic ones. -/
def boundingBox (cell : CellRecord) (series parallel : ℤ) : ℚ × ℚ × ℚ :=
  let cdl := coerceNum cell.cellDiameterLength
  let ch := coerceNum cell.cellHeight
  let td := coerceNum cell.thirdDimension
  if cell.shape = "Cylindrical" then
    (cdl * series, cdl * parallel, ch)
  else
    (cdl * series, td * parallel, ch)

/-! ## Candidate filtering (app.py lines 107-128) -/

/-- Boolean list-prefix test (used to model substring containment). -/
def isPrefixB : List Char → List Char → Bool
  | [], _ => true
  | _ :: _, [] => false
  | a :: as, b :: bs => a = b && isPrefixB as bs

/-- Boolean substring test on character lists. -/
def containsSub (needle : List Char) : List Char → Bool
  | [] => isPrefixB needle []
  | h :: t => isPrefixB needle (h :: t) || containsSub needle t

/-- ASCII lower-casing of one character. -/
def lowerChar (c : Char) : Char :=
  if 'A' ≤ c ∧ c ≤ 'Z' then Char.ofNat (c.toNat + 32) else c

/-- Case-insensitive substring match, modelling
`Series.str.contains(pattern, case=False)` on a plain (non-regex) pattern. -/
def containsCI (needle hay : String) : Bool :=
  containsSub (needle.data.map lowerChar) (hay.data.map lowerChar)

/-- The chemistry filter: keep rows whose `Chemistry` equals the choice,
or all rows when the choice is `"Any"`. -/
def chemFilter (chem : String) (table : List CellRecord) : List CellRecord :=
  if chem = "Any" then table
  else table.filter fun c => c.chemistry = chem

/-- Candidate filtering (app.py lines 109-119), parameterized by the
name-match predicate `matcher` (instantiated with `containsCI`): a
non-empty name filter keeps the rows whose name matches; if none matches,
the name filter is dropped and the chemistry filter is applied to the full
table; with no name filter only the chemistry filter applies. -/
def filterCandidates (matcher : String → String → Bool)
    (cell_type_input cell_chemistry : String) (table : List CellRecord) :
    List CellRecord :=
  if cell_type_input = "" then
    chemFilter cell_chemistry table
  else if table.filter (fun c => matcher cell_type_input c.cellName) = [] then
    chemFilter cell_chemistry table
  else
    table.filter fun c => matcher cell_type_input c.cellName

/-- The sort key relation: descending coerced cycle life
(`sort_values(by='Cycle life at 1C', ascending=False)` after
`to_numeric(errors=coerce).fillna(0)`). -/
def cycleLifeGE (a b : CellRecord) : Prop :=
  coerceNum b.cycleLife ≤ coerceNum a.cycleLife

instance : DecidableRel cycleLifeGE := fun a b =>
  inferInstanceAs (Decidable (coerceNum b.cycleLife ≤ coerceNum a.cycleLife))

instance : IsTotal CellRecord cycleLifeGE :=
  ⟨fun a b => le_total (coerceNum b.cycleLife) (coerceNum a.cycleLife)⟩

instance : IsTrans CellRecord cycleLifeGE :=
  ⟨fun _ _ _ h1 h2 => le_trans h2 h1⟩

/-- Sorting the candidates by descending cycle life. -/
def sortCandidates (table : List CellRecord) : List CellRecord :=
  List.insertionSort cycleLifeGE table

/-! ## Selection loop (app.py lines 185-208) -/

/-- `cell_wh = nominal_voltage * cell_capacity / 1000` with both factors
coerced to numbers (0 on failure). -/
def cellWh (cell : CellRecord) : ℚ :=
  coerceNum cell.nominalVoltage * coerceNum cell.cellCapacity / 1000

/-- `series = int(np.ceil(expected_voltage / nominal_voltage))`,
then `if series <= 0: series = 1`. -/
def seriesOf (expected_voltage : ℚ) (cell : CellRecord) : ℤ :=
  let s := ⌈expected_voltage / coerceNum cell.nominalVoltage⌉
  if s ≤ 0 then 1 else s

/-- `parallel = int(np.ceil(energy_required_kwh/(expected_voltage*cell_capacity)))`,
then `if parallel <= 0: parallel = 1`. -/
def parallelOf (energy_required_kwh expected_voltage : ℚ) (cell : CellRecord) : ℤ :=
  let p := ⌈energy_required_kwh / (expected_voltage * coerceNum cell.cellCapacity)⌉
  if p ≤ 0 then 1 else p

/-- One iteration of the selection loop on one candidate: skip the cell
when `cell_wh <= 0`; otherwise derive the counts and return the cell with
its counts and fitted orientation when `can_fit` succeeds. -/
def selectionStep (energy_required_kwh expected_voltage : ℚ)
    (usable_l usable_b usable_h : ℚ) (cell : CellRecord) :
    Option (CellRecord × ℤ × ℤ × (ℚ × ℚ × ℚ)) :=
  if cellWh cell ≤ 0 then none
  else
    match can_fit cell (seriesOf expected_voltage cell)
        (parallelOf energy_required_kwh expected_voltage cell)
        usable_l usable_b usable_h with
    | some fit => some (cell, seriesOf expected_voltage cell,
        parallelOf energy_required_kwh expected_voltage cell, fit)
    | none => none

/-- The selection loop `for _, cell in candidate_cells.iterrows()`: run
`selectionStep` down the list and stop at the first success (`break`). -/
def selectionLoop (energy_required_kwh expected_voltage : ℚ)
    (usable_l usable_b usable_h : ℚ) :
    List CellRecord → Option (CellRecord × ℤ × ℤ × (ℚ × ℚ × ℚ))
  | [] => none
  | cell :: rest =>
      match selectionStep energy_required_kwh expected_voltage
          usable_l usable_b usable_h cell with
      | some r => some r
      | none => selectionLoop energy_required_kwh expected_voltage
          usable_l usable_b usable_h rest

/-- The boolean acceptance predicate of the loop: positive cell energy and
a successful fit with the derived counts. -/
def acceptedB (energy_required_kwh expected_voltage : ℚ)
    (usable_l usable_b usable_h : ℚ) (cell : CellRecord) : Bool :=
  decide (0 < cellWh cell) &&
    (can_fit cell (seriesOf expected_voltage cell)
      (parallelOf energy_required_kwh expected_voltage cell)
      usable_l usable_b usable_h).isSome

/-! ## Concrete cells used in witnesses and counterexamples -/

/-- The spec's worked example: 3.2 V, 100 Ah LFP cylindrical cell,
21 mm diameter, 70 mm height. -/
def lfpCell : CellRecord :=
  { cellName := "LFP-100", chemistry := "LFP", shape := "Cylindrical",
    nominalVoltage := some (16/5), cellCapacity := some 100,
    cellDiameterLength := some 21, cellHeight := some 70,
    thirdDimension := none, cycleLife := some 3000 }

/-- A row whose diameter column is non-numeric (pandas coerces it to
`NaN`, the script then fills it with 0). -/
def zeroDimCell : CellRecord :=
  { cellName := "BadDim", chemistry := "LFP", shape := "Cylindrical",
    nominalVoltage := some (16/5), cellCapacity := some 100,
    cellDiameterLength := none, cellHeight := some 70,
    thirdDimension := none, cycleLife := some 2000 }

/-- A row with negative nominal voltage and negative capacity: their
product is positive, so `cell_wh > 0`. -/
def negCell : CellRecord :=
  { cellName := "NegNeg", chemistry := "LFP", shape := "Cylindrical",
    nominalVoltage := some (-(16/5)), cellCapacity := some (-100),
    cellDiameterLength := some 21, cellHeight := some 70,
    thirdDimension := none, cycleLife := some 1000 }

/-- A row with negative nominal voltage and positive capacity. -/
def negVoltCell : CellRecord :=
  { cellName := "NegV", chemistry := "LFP", shape := "Cylindrical",
    nominalVoltage := some (-1), cellCapacity := some 100,
    cellDiameterLength := some 21, cellHeight := some 70,
    thirdDimension := none, cycleLife := some 1000 }

/-! ## Helper lemmas -/

/-- Evaluate an integer ceiling from the two defining bounds. -/
theorem ceilEval (q : ℚ) (z : ℤ) (h1 : (z : ℚ) - 1 < q) (h2 : q ≤ z) :
    (⌈q⌉ : ℤ) = z := Int.ceil_eq_iff.mpr ⟨h1, h2⟩

/-- `firstFit` succeeds iff some listed configuration is within the envelope. -/
theorem firstFit_isSome_iff (L B H : ℚ) (l : List (ℚ × ℚ × ℚ)) :
    (firstFit L B H l).isSome = true ↔
      ∃ c ∈ l, c.1 ≤ L ∧ c.2.1 ≤ B ∧ c.2.2 ≤ H := by
  induction l with
  | nil => simp [firstFit]
  | cons c rest ih =>
      by_cases h : c.1 ≤ L ∧ c.2.1 ≤ B ∧ c.2.2 ≤ H
      · simp [firstFit, h]
      · simp only [firstFit, if_neg h, ih, List.mem_cons]
        constructor
        · rintro ⟨d, hd, hfit⟩; exact ⟨d, Or.inr hd, hfit⟩
        · rintro ⟨d, hd | hd, hfit⟩
          · exact absurd (hd ▸ hfit) h
          · exact ⟨d, hd, hfit⟩

/-- `firstFit` is `List.find?` with the containment predicate. -/
theorem firstFit_eq_findFirst (L B H : ℚ) (l : List (ℚ × ℚ × ℚ)) :
    firstFit L B H l =
      l.find? fun c =>
        decide (c.1 ≤ L) && decide (c.2.1 ≤ B) && decide (c.2.2 ≤ H) := by
  induction l with
  | nil => rfl
  | cons c rest ih =>
      by_cases h : c.1 ≤ L ∧ c.2.1 ≤ B ∧ c.2.2 ≤ H
      · have hb : (decide (c.1 ≤ L) && decide (c.2.1 ≤ B) && decide (c.2.2 ≤ H)) = true := by
          simp [h.1, h.2.1, h.2.2]
        simp [firstFit, h, List.find?, hb]
      · have hb : (decide (c.1 ≤ L) && decide (c.2.1 ≤ B) && decide (c.2.2 ≤ H)) = false := by
          by_contra hcon
          rw [Bool.not_eq_false, Bool.and_assoc] at hcon
          simp only [Bool.and_eq_true, decide_eq_true_eq] at hcon
          exact h ⟨hcon.1, hcon.2.1, hcon.2.2⟩
        simp [firstFit, h, List.find?, hb, ih]

/-- A two-element list permutation forces one of the two orderings. -/
theorem perm_pair_cases {α : Type} {y z u v : α}
    (h : List.Perm [y, z] [u, v]) :
    (y = u ∧ z = v) ∨ (y = v ∧ z = u) := by
  have hy : y ∈ [u, v] := h.mem_iff.mp (by simp)
  simp only [List.mem_cons, List.not_mem_nil, or_false, List.mem_singleton] at hy
  rcases hy with hy | hy
  · subst hy
    have hz := (List.perm_cons y).mp h
    rw [List.perm_singleton] at hz
    exact Or.inl ⟨rfl, by simpa using hz⟩
  · subst hy
    have h2 : List.Perm [y, z] [y, u] := h.trans (List.Perm.swap y u [])
    have hz := (List.perm_cons y).mp h2
    rw [List.perm_singleton] at hz
    exact Or.inr ⟨rfl, by simpa using hz⟩

/-- A three-element list permutation forces one of the six orderings. -/
theorem perm_three_iff {α : Type} {x y z a b c : α} :
    List.Perm [x, y, z] [a, b, c] ↔
      (x = a ∧ y = b ∧ z = c) ∨ (x = a ∧ y = c ∧ z = b) ∨
      (x = b ∧ y = a ∧ z = c) ∨ (x = b ∧ y = c ∧ z = a) ∨
      (x = c ∧ y = a ∧ z = b) ∨ (x = c ∧ y = b ∧ z = a) := by
  constructor
  · intro h
    have hx : x ∈ [a, b, c] := h.mem_iff.mp (by simp)
    simp only [List.mem_cons, List.not_mem_nil, or_false, List.mem_singleton] at hx
    rcases hx with hx | hx | hx
    · subst hx
      have h2 := (List.perm_cons x).mp h
      rcases perm_pair_cases h2 with ⟨h3, h4⟩ | ⟨h3, h4⟩
      · exact Or.inl ⟨rfl, h3, h4⟩
      · exact Or.inr (Or.inl ⟨rfl, h3, h4⟩)
    · subst hx
      have hswap : List.Perm [a, x, c] [x, a, c] := List.Perm.swap x a [c]
      have h2 := (List.perm_cons x).mp (h.trans hswap)
      rcases perm_pair_cases h2 with ⟨h3, h4⟩ | ⟨h3, h4⟩
      · exact Or.inr (Or.inr (Or.inl ⟨rfl, h3, h4⟩))
      · exact Or.inr (Or.inr (Or.inr (Or.inl ⟨rfl, h3, h4⟩)))
    · subst hx
      have hswap : List.Perm [a, b, x] [x, a, b] :=
        (List.Perm.swap x b [] |>.cons a).trans (List.Perm.swap x a [b])
      have h2 := (List.perm_cons x).mp (h.trans hswap)
      rcases perm_pair_cases h2 with ⟨h3, h4⟩ | ⟨h3, h4⟩
      · exact Or.inr (Or.inr (Or.inr (Or.inr (Or.inl ⟨rfl, h3, h4⟩))))
      · exact Or.inr (Or.inr (Or.inr (Or.inr (Or.inr ⟨rfl, h3, h4⟩))))
  · rintro (⟨h1, h2, h3⟩ | ⟨h1, h2, h3⟩ | ⟨h1, h2, h3⟩ |
      ⟨h1, h2, h3⟩ | ⟨h1, h2, h3⟩ | ⟨h1, h2, h3⟩) <;> rw [h1, h2, h3]
    · exact List.Perm.cons a (List.Perm.swap b c [])
    · exact List.Perm.swap a b [c]
    · exact ((List.Perm.swap a c []).cons b).trans (List.Perm.swap a b [c])
    · exact (List.Perm.swap a c [b]).trans (List.Perm.cons a (List.Perm.swap b c []))
    · exact (List.Perm.swap b c [a]).trans
        (((List.Perm.swap a c []).cons b).trans (List.Perm.swap a b [c]))

/-- The six listed configurations are exactly the orderings of the
bounding-box triple. -/
theorem mem_volume_configurations_iff (cell : CellRecord) (s p : ℤ)
    (c : ℚ × ℚ × ℚ) :
    c ∈ volume_configurations cell s p ↔
      List.Perm [c.1, c.2.1, c.2.2]
        [(boundingBox cell s p).1, (boundingBox cell s p).2.1,
         (boundingBox cell s p).2.2] := by
  obtain ⟨x, y, z⟩ := c
  by_cases hs : cell.shape = "Cylindrical"
  · simp only [volume_configurations, boundingBox, hs, if_true,
      eq_self_iff_true, List.mem_cons, List.not_mem_nil, or_false,
      Prod.mk.injEq]
    rw [perm_three_iff]
    constructor
    · rintro (h | h | h | h | h | h)
      exacts [Or.inl h,
        Or.inr (Or.inr (Or.inl h)),
        Or.inr (Or.inr (Or.inr (Or.inr (Or.inl h)))),
        Or.inr (Or.inl h),
        Or.inr (Or.inr (Or.inr (Or.inl h))),
        Or.inr (Or.inr (Or.inr (Or.inr (Or.inr h))))]
    · rintro (h | h | h | h | h | h)
      exacts [Or.inl h,
        Or.inr (Or.inr (Or.inr (Or.inl h))),
        Or.inr (Or.inl h),
        Or.inr (Or.inr (Or.inr (Or.inr (Or.inl h)))),
        Or.inr (Or.inr (Or.inl h)),
        Or.inr (Or.inr (Or.inr (Or.inr (Or.inr h))))]
  · simp only [volume_configurations, boundingBox, hs, if_false,
      List.mem_cons, List.not_mem_nil, or_false, Prod.mk.injEq]
    rw [perm_three_iff]

/-- `firstFit` returns `some c` exactly when `c` fits and is the first
fitting element of the list. -/
theorem firstFit_eq_some_iff (L B H : ℚ) (l : List (ℚ × ℚ × ℚ))
    (c : ℚ × ℚ × ℚ) :
    firstFit L B H l = some c ↔
      (c.1 ≤ L ∧ c.2.1 ≤ B ∧ c.2.2 ≤ H) ∧
      ∃ l1 l2, l = l1 ++ c :: l2 ∧
        ∀ d ∈ l1, ¬(d.1 ≤ L ∧ d.2.1 ≤ B ∧ d.2.2 ≤ H) := by
  induction l with
  | nil =>
      constructor
      · intro h; exact absurd h (by simp [firstFit])
      · rintro ⟨-, l1, l2, hdec, -⟩
        exact absurd hdec.symm (List.append_ne_nil_of_right_ne_nil l1 (by simp))
  | cons a rest ih =>
      by_cases h : a.1 ≤ L ∧ a.2.1 ≤ B ∧ a.2.2 ≤ H
      · rw [firstFit, if_pos h]
        constructor
        · intro hc
          injection hc with hc
          subst hc
          exact ⟨h, [], rest, rfl, by simp⟩
        · rintro ⟨hcfits, l1, l2, hdec, hnone⟩
          cases l1 with
          | nil =>
              injection hdec with h1 h2
              rw [h1]
          | cons e l1t =>
              injection hdec with h1 h2
              exact absurd (h1 ▸ h) (hnone e (by simp))
      · rw [firstFit, if_neg h, ih]
        constructor
        · rintro ⟨hcfits, l1, l2, hdec, hnone⟩
          refine ⟨hcfits, a :: l1, l2, by rw [hdec, List.cons_append], ?_⟩
          intro d hd
          rcases List.mem_cons.mp hd with hd | hd
          · exact hd ▸ h
          · exact hnone d hd
        · rintro ⟨hcfits, l1, l2, hdec, hnone⟩
          cases l1 with
          | nil =>
              injection hdec with h1 h2
              exact absurd (h1 ▸ hcfits) h
          | cons e l1t =>
              injection hdec with h1 h2
              exact ⟨hcfits, l1t, l2, h2,
                fun d hd => hnone d (List.mem_cons_of_mem _ hd)⟩

/-- `firstFit` returns `none` exactly when no listed configuration fits. -/
theorem firstFit_eq_none_iff (L B H : ℚ) (l : List (ℚ × ℚ × ℚ)) :
    firstFit L B H l = none ↔
      ∀ c ∈ l, ¬(c.1 ≤ L ∧ c.2.1 ≤ B ∧ c.2.2 ≤ H) := by
  constructor
  · intro h c hc hfit
    have hsome := (firstFit_isSome_iff L B H l).mpr ⟨c, hc, hfit⟩
    rw [h] at hsome
    exact absurd hsome (by simp)
  · intro h
    cases hf : firstFit L B H l with
    | none => rfl
    | some c =>
        have hsome : (firstFit L B H l).isSome = true := by rw [hf]; rfl
        obtain ⟨d, hd, hfit⟩ := (firstFit_isSome_iff L B H l).mp hsome
        exact absurd hfit (h d hd)

/-- A loop iteration succeeds exactly when the acceptance predicate holds. -/
theorem selectionStep_isSome_eq (E t L B H : ℚ) (cell : CellRecord) :
    (selectionStep E t L B H cell).isSome = acceptedB E t L B H cell := by
  unfold selectionStep acceptedB
  by_cases h : cellWh cell ≤ 0
  · simp [h, not_lt.mpr h]
  · have h0 : 0 < cellWh cell := not_le.mp h
    rw [if_neg h]
    cases hc : can_fit cell (seriesOf t cell) (parallelOf E t cell) L B H <;>
      simp [hc, h0]

/-- A successful loop iteration returns the examined cell itself. -/
theorem selectionStep_fst (E t L B H : ℚ) (cell : CellRecord)
    (r : CellRecord × ℤ × ℤ × (ℚ × ℚ × ℚ))
    (h : selectionStep E t L B H cell = some r) : r.1 = cell := by
  unfold selectionStep at h
  by_cases hw : cellWh cell ≤ 0
  · rw [if_pos hw] at h
    exact absurd h (by simp)
  · rw [if_neg hw] at h
    cases hc : can_fit cell (seriesOf t cell) (parallelOf E t cell) L B H with
    | none => rw [hc] at h; exact absurd h (by simp)
    | some fit =>
        rw [hc] at h
        injection h with h
        rw [← h]

/-- The loop returns the first candidate accepted by `acceptedB`. -/
theorem selectionLoop_map_fst (E t L B H : ℚ) (l : List CellRecord) :
    (selectionLoop E t L B H l).map (fun r => r.1) =
      l.find? (acceptedB E t L B H) := by
  induction l with
  | nil => rfl
  | cons cell rest ih =>
      rw [selectionLoop]
      cases hs : selectionStep E t L B H cell with
      | some r =>
          have hacc : acceptedB E t L B H cell = true := by
            rw [← selectionStep_isSome_eq, hs]; rfl
          rw [List.find?_cons_of_pos _ hacc]
          simp [selectionStep_fst E t L B H cell r hs]
      | none =>
          have hacc : acceptedB E t L B H cell = false := by
            rw [← selectionStep_isSome_eq, hs]; rfl
          rw [List.find?_cons_of_neg _ (by simp [hacc]), ← ih]

/-! ## Claim theorems -/

/-- C3: for a candidate with positive nominal voltage and capacity and a
positive target voltage, the computed series count — the ceiling of
`targetVoltage / nominalVoltage`, clamped to a minimum of 1 — yields a pack
voltage `seriesCount × nominalVoltage` that meets or exceeds the target. -/
theorem series_count_meets_target_voltage (t : ℚ) (cell : CellRecord)
    (hv : 0 < coerceNum cell.nominalVoltage)
    (hc : 0 < coerceNum cell.cellCapacity)
    (ht : 0 < t) :
    t ≤ (seriesOf t cell : ℚ) * coerceNum cell.nominalVoltage := by
  have hq : 0 < t / coerceNum cell.nominalVoltage := div_pos ht hv
  have hceil : 0 < ⌈t / coerceNum cell.nominalVoltage⌉ := Int.ceil_pos.mpr hq
  unfold seriesOf
  rw [if_neg (not_le.mpr hceil)]
  have h1 : t / coerceNum cell.nominalVoltage ≤
      (⌈t / coerceNum cell.nominalVoltage⌉ : ℚ) := Int.le_ceil _
  calc t = t / coerceNum cell.nominalVoltage * coerceNum cell.nominalVoltage := by
          field_simp
    _ ≤ (⌈t / coerceNum cell.nominalVoltage⌉ : ℚ) * coerceNum cell.nominalVoltage :=
          mul_le_mul_of_nonneg_right h1 (le_of_lt hv)

/-- Witness for C3 at the spec's example: 48 V target, 3.2 V cell. -/
theorem series_count_meets_target_voltage_witness :
    (0 : ℚ) < coerceNum lfpCell.nominalVoltage ∧
    (0 : ℚ) < coerceNum lfpCell.cellCapacity ∧
    (0 : ℚ) < 48 ∧
    (48 : ℚ) ≤ (seriesOf 48 lfpCell : ℚ) * coerceNum lfpCell.nominalVoltage :=
  ⟨by norm_num [coerceNum, lfpCell],
   by norm_num [coerceNum, lfpCell],
   by norm_num,
   series_count_meets_target_voltage 48 lfpCell
     (by norm_num [coerceNum, lfpCell])
     (by norm_num [coerceNum, lfpCell])
     (by norm_num)⟩

/-- C5: `can_fit` succeeds iff some ordering of the cell-array
bounding-box triple is componentwise within the usable envelope; the
right-hand side is stated via `List.Perm`, so it is independent of the
enumeration order. -/
theorem can_fit_isSome_iff_some_orientation_fits (cell : CellRecord)
    (s p : ℤ) (L B H : ℚ) :
    (can_fit cell s p L B H).isSome = true ↔
      ∃ x y z : ℚ,
        List.Perm [x, y, z]
          [(boundingBox cell s p).1, (boundingBox cell s p).2.1,
           (boundingBox cell s p).2.2] ∧
        x ≤ L ∧ y ≤ B ∧ z ≤ H := by
  rw [can_fit, firstFit_isSome_iff]
  constructor
  · rintro ⟨c, hc, h1, h2, h3⟩
    exact ⟨c.1, c.2.1, c.2.2,
      (mem_volume_configurations_iff cell s p c).mp hc, h1, h2, h3⟩
  · rintro ⟨x, y, z, hperm, h1, h2, h3⟩
    exact ⟨(x, y, z),
      (mem_volume_configurations_iff cell s p (x, y, z)).mpr hperm, h1, h2, h3⟩

/-- C6: when a configuration fits, `can_fit` returns exactly the first
fitting triple in its fixed enumeration order (all earlier listed
configurations fail the containment test); when none fits it returns
`None`. -/
theorem can_fit_returns_first_fitting_configuration (cell : CellRecord)
    (s p : ℤ) (L B H : ℚ) :
    (∀ c, can_fit cell s p L B H = some c ↔
      (c.1 ≤ L ∧ c.2.1 ≤ B ∧ c.2.2 ≤ H) ∧
      ∃ l1 l2, volume_configurations cell s p = l1 ++ c :: l2 ∧
        ∀ d ∈ l1, ¬(d.1 ≤ L ∧ d.2.1 ≤ B ∧ d.2.2 ≤ H)) ∧
    (can_fit cell s p L B H = none ↔
      ∀ c ∈ volume_configurations cell s p,
        ¬(c.1 ≤ L ∧ c.2.1 ≤ B ∧ c.2.2 ≤ H)) :=
  ⟨fun c => firstFit_eq_some_iff L B H (volume_configurations cell s p) c,
   firstFit_eq_none_iff L B H (volume_configurations cell s p)⟩

/-- C10: enlarging the usable envelope preserves the existence of a fit. -/
theorem can_fit_monotone_in_envelope (cell : CellRecord) (s p : ℤ)
    (L B H L2 B2 H2 : ℚ)
    (hfit : (can_fit cell s p L B H).isSome = true)
    (hL : L ≤ L2) (hB : B ≤ B2) (hH : H ≤ H2) :
    (can_fit cell s p L2 B2 H2).isSome = true := by
  rw [can_fit, firstFit_isSome_iff] at hfit ⊢
  obtain ⟨c, hc, h1, h2, h3⟩ := hfit
  exact ⟨c, hc, h1.trans hL, h2.trans hB, h3.trans hH⟩

/-- Witness for C10: the example cell in a 1×1 block fits a
100×100×100 envelope, hence also a 200×200×200 one. -/
theorem can_fit_monotone_in_envelope_witness :
    (can_fit lfpCell 1 1 100 100 100).isSome = true ∧
    (100 : ℚ) ≤ 200 ∧
    (can_fit lfpCell 1 1 200 200 200).isSome = true := by
  have h : (can_fit lfpCell 1 1 100 100 100).isSome = true := by
    norm_num [can_fit, firstFit, volume_configurations, coerceNum, lfpCell]
  exact ⟨h, by norm_num,
    can_fit_monotone_in_envelope lfpCell 1 1 100 100 100 200 200 200 h
      (by norm_num) (by norm_num) (by norm_num)⟩

/-- C7: a non-empty name filter that matches no row is dropped, and the
effective candidate set is the chemistry-only filtered set (the whole
table when the chemistry choice is "Any"). -/
theorem name_filter_fallback (matcher : String → String → Bool)
    (cell_type_input cell_chemistry : String) (table : List CellRecord)
    (hne : cell_type_input ≠ "")
    (hempty : table.filter (fun c => matcher cell_type_input c.cellName) = []) :
    filterCandidates matcher cell_type_input cell_chemistry table =
      chemFilter cell_chemistry table ∧
    (cell_chemistry = "Any" →
      filterCandidates matcher cell_type_input cell_chemistry table = table) := by
  constructor
  · rw [filterCandidates, if_neg hne, if_pos hempty]
  · intro hany
    rw [filterCandidates, if_neg hne, if_pos hempty, chemFilter, if_pos hany]

/-- Witness for C7: the name filter "xyz" matches no cell name in the
one-row table, so the candidate set falls back to the whole table. -/
theorem name_filter_fallback_witness :
    "xyz" ≠ "" ∧
    ([lfpCell].filter fun c => containsCI "xyz" c.cellName) = [] ∧
    filterCandidates containsCI "xyz" "Any" [lfpCell] =
      chemFilter "Any" [lfpCell] ∧
    filterCandidates containsCI "xyz" "Any" [lfpCell] = [lfpCell] := by
  have hne : "xyz" ≠ "" := by decide
  have hempty : ([lfpCell].filter fun c => containsCI "xyz" c.cellName) = [] := by
    rfl
  have h := name_filter_fallback containsCI "xyz" "Any" [lfpCell] hne hempty
  exact ⟨hne, hempty, h.1, h.2 rfl⟩

/-- C8: the candidates are sorted by descending coerced cycle life (a
permutation of the filtered rows), and the loop's accepted cell is the
first element of that order with positive cell energy and a successful
fit; `List.find?` stops at the first acceptance, so no later candidate
is examined. -/
theorem selection_takes_first_accepted_in_cycle_life_order
    (E t L B H : ℚ) (rows : List CellRecord) :
    List.Sorted cycleLifeGE (sortCandidates rows) ∧
    List.Perm (sortCandidates rows) rows ∧
    ((selectionLoop E t L B H (sortCandidates rows)).map fun r => r.1) =
      (sortCandidates rows).find? (acceptedB E t L B H) :=
  ⟨List.sorted_insertionSort cycleLifeGE rows,
   List.perm_insertionSort cycleLifeGE rows,
   selectionLoop_map_fst E t L B H (sortCandidates rows)⟩

/-- C1 (code bug): at the spec's example (48 V target, 3.2 V / 100 Ah
cell, 5 kWh required) the loop computes parallel = 1 — it divides the
kWh figure by `expected_voltage * cell_capacity` — while the claimed
formula ceil(requiredEnergy*1000 / (V*Ah*series)) yields 2. -/
theorem parallel_count_formula_bug :
    selectionLoop 5 48 390 390 90 [lfpCell] =
      some (lfpCell, 15, 1, (315, 21, 70)) ∧
    (⌈(5 : ℚ) * 1000 / (coerceNum lfpCell.nominalVoltage *
        coerceNum lfpCell.cellCapacity * 15)⌉ : ℤ) = 2 := by
  have h1 : (⌈(1 : ℚ)/960⌉ : ℤ) = 1 := ceilEval _ _ (by norm_num) (by norm_num)
  have h2 : (⌈(48 : ℚ)/(16/5)⌉ : ℤ) = 15 := ceilEval _ _ (by norm_num) (by norm_num)
  constructor
  · norm_num [selectionLoop, selectionStep, can_fit, firstFit,
      volume_configurations, cellWh, seriesOf, parallelOf, coerceNum,
      lfpCell, h1, h2]
  · have hq : (5 : ℚ) * 1000 / (coerceNum lfpCell.nominalVoltage *
        coerceNum lfpCell.cellCapacity * 15) = 25/24 := by
      norm_num [coerceNum, lfpCell]
    rw [hq]
    exact ceilEval _ _ (by norm_num) (by norm_num)

/-- C2 (code bug): the configuration accepted at the spec's example has
pack energy 15 × 1 × 3.2 V × 100 Ah / 1000 = 4.8 kWh, strictly below the
required 5 kWh. -/
theorem accepted_pack_energy_below_requirement :
    selectionLoop 5 48 390 390 90 [lfpCell] =
      some (lfpCell, 15, 1, (315, 21, 70)) ∧
    (15 : ℚ) * 1 * coerceNum lfpCell.nominalVoltage *
        coerceNum lfpCell.cellCapacity / 1000 < 5 := by
  have h1 : (⌈(1 : ℚ)/960⌉ : ℤ) = 1 := ceilEval _ _ (by norm_num) (by norm_num)
  have h2 : (⌈(48 : ℚ)/(16/5)⌉ : ℤ) = 15 := ceilEval _ _ (by norm_num) (by norm_num)
  constructor
  · norm_num [selectionLoop, selectionStep, can_fit, firstFit,
      volume_configurations, cellWh, seriesOf, parallelOf, coerceNum,
      lfpCell, h1, h2]
  · norm_num [coerceNum, lfpCell]

/-- C4 counterexample: a row whose diameter column is non-numeric
(coerced to 0, a non-positive dimension) is selected as the accepted
cell — the degenerate bounding box (0, 0, 70) trivially fits. -/
theorem nonpositive_dimension_row_selected :
    coerceNum zeroDimCell.cellDiameterLength ≤ 0 ∧
    ((selectionLoop 5 48 390 390 90 [zeroDimCell]).map fun r => r.1) =
      some zeroDimCell := by
  have h1 : (⌈(1 : ℚ)/960⌉ : ℤ) = 1 := ceilEval _ _ (by norm_num) (by norm_num)
  have h2 : (⌈(48 : ℚ)/(16/5)⌉ : ℤ) = 15 := ceilEval _ _ (by norm_num) (by norm_num)
  constructor
  · norm_num [coerceNum, zeroDimCell]
  · norm_num [selectionLoop, selectionStep, can_fit, firstFit,
      volume_configurations, cellWh, seriesOf, parallelOf, coerceNum,
      zeroDimCell, h1, h2]

/-- C4 amended: rows with non-positive or non-numeric dimensions are not
excluded; the value is coerced to 0 and the row goes through the fit
check like any other. In particular a cylindrical row whose diameter
coerces to 0 passes the fit check — and can be selected — whenever its
height is within the usable height and the usable length and breadth are
non-negative. -/
theorem zero_dimension_rows_not_excluded (cell : CellRecord) (s p : ℤ)
    (L B H : ℚ) (hshape : cell.shape = "Cylindrical")
    (hd : coerceNum cell.cellDiameterLength = 0)
    (hL : 0 ≤ L) (hB : 0 ≤ B) (hH : coerceNum cell.cellHeight ≤ H) :
    (can_fit cell s p L B H).isSome = true := by
  rw [can_fit, firstFit_isSome_iff]
  refine ⟨(0, 0, coerceNum cell.cellHeight), ?_, hL, hB, hH⟩
  simp only [volume_configurations]
  rw [if_pos hshape]
  simp [hd]

/-- Witness for the amended C4: the zero-diameter row passes the fit
check in a 0 × 5 × 70 envelope. -/
theorem zero_dimension_rows_not_excluded_witness :
    zeroDimCell.shape = "Cylindrical" ∧
    coerceNum zeroDimCell.cellDiameterLength = 0 ∧
    (0 : ℚ) ≤ 0 ∧ (0 : ℚ) ≤ 5 ∧
    coerceNum zeroDimCell.cellHeight ≤ 70 ∧
    (can_fit zeroDimCell 7 3 0 5 70).isSome = true :=
  ⟨rfl, rfl, le_refl 0, by norm_num, by norm_num [coerceNum, zeroDimCell],
   zero_dimension_rows_not_excluded zeroDimCell 7 3 0 5 70 rfl rfl
     (le_refl 0) (by norm_num) (by norm_num [coerceNum, zeroDimCell])⟩

/-- C9 counterexample: a row whose nominal voltage and capacity are both
negative has positive `cell_wh`, is not skipped, and is selected. -/
theorem negative_voltage_cell_selected :
    coerceNum negCell.nominalVoltage ≤ 0 ∧
    coerceNum negCell.cellCapacity ≤ 0 ∧
    ((selectionLoop 5 48 390 390 90 [negCell]).map fun r => r.1) =
      some negCell := by
  have h1 : (⌈(-(1/960) : ℚ)⌉ : ℤ) = 0 :=
    ceilEval _ _ (by norm_num) (by norm_num)
  have h2 : (⌈(-15 : ℚ)⌉ : ℤ) = -15 :=
    ceilEval _ _ (by norm_num) (by norm_num)
  refine ⟨by norm_num [coerceNum, negCell], by norm_num [coerceNum, negCell], ?_⟩
  norm_num [selectionLoop, selectionStep, can_fit, firstFit,
    volume_configurations, cellWh, seriesOf, parallelOf, coerceNum,
    negCell, h1, h2]

/-- C9 amended: the loop skips a candidate exactly on the guard
`cell_wh ≤ 0`, i.e. whenever coerced nominalVoltage × coerced capacity
≤ 0 — which covers every row where exactly one of the two is
non-positive, but not a row where both are negative. -/
theorem nonpositive_energy_cell_skipped (E t L B H : ℚ) (cell : CellRecord)
    (h : coerceNum cell.nominalVoltage * coerceNum cell.cellCapacity ≤ 0) :
    selectionStep E t L B H cell = none ∧
    ∀ rest, selectionLoop E t L B H (cell :: rest) =
      selectionLoop E t L B H rest := by
  have hwh : cellWh cell ≤ 0 := by
    unfold cellWh
    rw [div_le_iff₀ (by norm_num : (0 : ℚ) < 1000)]
    simpa using h
  have hstep : selectionStep E t L B H cell = none := by
    unfold selectionStep
    rw [if_pos hwh]
  exact ⟨hstep, fun rest => by rw [selectionLoop, hstep]⟩

/-- Witness for the amended C9: a cell with −1 V nominal voltage and
100 Ah capacity is skipped by the loop. -/
theorem nonpositive_energy_cell_skipped_witness :
    coerceNum negVoltCell.nominalVoltage *
      coerceNum negVoltCell.cellCapacity ≤ 0 ∧
    selectionStep 5 48 390 390 90 negVoltCell = none ∧
    selectionLoop 5 48 390 390 90 [negVoltCell] = none := by
  have hh : coerceNum negVoltCell.nominalVoltage *
      coerceNum negVoltCell.cellCapacity ≤ 0 := by
    norm_num [coerceNum, negVoltCell]
  have h := nonpositive_energy_cell_skipped 5 48 390 390 90 negVoltCell hh
  exact ⟨hh, h.1, by rw [h.2 []]; rfl⟩

end BatteryPack
